import Mathlib

set_option maxRecDepth 2000

/-!
Verification development for the dotplot construction engine
(`src/graphics/dotplot.py`).

The engine reads whitespace-delimited anchor lines
`queryId subjectId value ...`, clips the value into `[vmin, vmax]`,
resolves both identifiers through the per-axis order lookups, collects
mapped points `(queryIndex, subjectIndex, vmax - value)`, randomly
downsamples to at most 5000 points, sorts by descending score, and hands
the result to the plotting collaborator.  Chromosome boundaries are
computed by `get_breaks` from the ordered-gene index.

Shallow embedding conventions:
* Python floats are modelled as exact rationals (`ℚ`); the claims are
  about the algebraic structure of the computation, not rounding.
* The dict lookups `qorder` / `sorder` are modelled as
  `String → Option ℕ` (the metadata component of the stored pair is
  unused by the code region under study and is dropped).
* `random.sample` is nondeterministic; it is modelled relationally by
  its postcondition (a length-`k` sub-multiset of the input).
* A raised exception is modelled as `none`.
-/

/-- A mapped point `(queryIndex, subjectIndex, score)`, the tuple
`(qi, si, vmax - value)` appended to `data` in the source. -/
abbrev MappedPoint := ℕ × ℕ × ℚ

/-- Accumulator-based splitter over the character list: skips whitespace
runs and collects maximal non-whitespace words. -/
def splitWSAux : List Char → List Char → List String
  | [], acc => if acc.isEmpty then [] else [String.mk acc.reverse]
  | c :: cs, acc =>
    if c.isWhitespace then
      if acc.isEmpty then splitWSAux cs []
      else String.mk acc.reverse :: splitWSAux cs []
    else splitWSAux cs (c :: acc)

/-- Python's `row.split()`: split on whitespace runs, discarding empty
fields. -/
def pySplit (row : String) : List String :=
  splitWSAux row.toList []

/-- Value of a list of decimal digits. -/
def digitsToNat (cs : List Char) : ℕ :=
  cs.foldl (fun n c => 10 * n + (c.toNat - 48)) 0

/-- Python's `float(value)` on the plain decimal forms
`[+-]digits[.digits]` (exponent notation is not modelled; no claim
exercises it).  Returns `none` where Python raises `ValueError`. -/
def parseFloat (s : String) : Option ℚ :=
  let cs := s.toList
  let sign : ℚ × List Char :=
    match cs with
    | '-' :: rest => (-1, rest)
    | '+' :: rest => (1, rest)
    | _ => (1, cs)
  let intDigits := sign.2.takeWhile Char.isDigit
  let rest := sign.2.dropWhile Char.isDigit
  match rest with
  | [] =>
    if intDigits.isEmpty then none
    else some (sign.1 * digitsToNat intDigits)
  | '.' :: rest2 =>
    let fracDigits := rest2.takeWhile Char.isDigit
    let rest3 := rest2.dropWhile Char.isDigit
    if rest3 ≠ [] then none
    else if intDigits.isEmpty && fracDigits.isEmpty then none
    else some (sign.1 *
      ((digitsToNat intDigits : ℚ) +
        (digitsToNat fracDigits : ℚ) / 10 ^ fracDigits.length))
  | _ => none

/-- The two sequential clips
`if value < vmin: value = vmin` then `if value > vmax: value = vmax`. -/
def clampValue (vmin vmax v : ℚ) : ℚ :=
  let v1 := if v < vmin then vmin else v
  if v1 > vmax then vmax else v1

/-- One iteration of the parsing loop on a raw line: skip the line when
it has fewer than three whitespace-separated fields, otherwise take the
first three fields, parse the third as a float (falling back to `vmin`
on failure, as the bare `except` does), and clip it. -/
def parseLine (vmin vmax : ℚ) (row : String) : Option (String × String × ℚ) :=
  match pySplit row with
  | query :: subject :: value :: _ =>
    some (query, subject, clampValue vmin vmax ((parseFloat value).getD vmin))
  | _ => none

/-- The mapping step on a parsed record: drop it when either identifier
is absent from its order lookup, otherwise build
`(qi, si, vmax - value)`. -/
def mapRecord (qorder sorder : String → Option ℕ) (vmax : ℚ)
    (rec : String × String × ℚ) : Option MappedPoint :=
  match qorder rec.1 with
  | none => none
  | some qi =>
    match sorder rec.2.1 with
    | none => none
    | some si => some (qi, si, vmax - rec.2.2)

/-- The full parse-and-map loop over the input lines: the `data` list
right before downsampling. -/
def mappedPoints (qorder sorder : String → Option ℕ) (vmin vmax : ℚ)
    (lines : List String) : List MappedPoint :=
  lines.filterMap fun row =>
    (parseLine vmin vmax row).bind (mapRecord qorder sorder vmax)

/-- The fixed downsampling cap, `sample_number = 5000` in the source. -/
def sampleNumber : ℕ := 5000

/-- Postcondition of `random.sample(data, k)`: a length-`k` selection
without replacement, i.e. a sub-multiset of the input.  The selection
itself is random, so it is modelled relationally. -/
def SampleSpec (data : List MappedPoint) (k : ℕ) (out : List MappedPoint) : Prop :=
  out.length = k ∧ (out : Multiset MappedPoint) ≤ (data : Multiset MappedPoint)

/-- The downsampling step
`if len(data) > sample_number: data = sample(data, sample_number)`,
as a relation between the incoming and outgoing `data`: when the cap is
exceeded the output is an admissible `random.sample` result, otherwise
the list passes through unchanged.  (The branch condition is stated
propositionally rather than with `ite`, which is equivalent and keeps
the relation independent of decidability evaluation.) -/
def Downsamples (data out : List MappedPoint) : Prop :=
  (sampleNumber < data.length → SampleSpec data sampleNumber out) ∧
  (¬ sampleNumber < data.length → out = data)

/-- The sort key ordering of `data.sort(key=lambda x: -x[2])`:
ascending `-score`, i.e. descending score. -/
def scoreGE (a b : MappedPoint) : Prop := b.2.2 ≤ a.2.2

instance : DecidableRel scoreGE := fun a b =>
  inferInstanceAs (Decidable (b.2.2 ≤ a.2.2))

instance : IsTotal MappedPoint scoreGE := ⟨fun a b => le_total b.2.2 a.2.2⟩

instance : IsTrans MappedPoint scoreGE := ⟨fun _ _ _ h1 h2 => le_trans h2 h1⟩

/-- The sorting step `data.sort(key=lambda x: -x[2])`: a stable sort by
descending score (modelled by insertion sort, which computes a sort with
the same ordering contract). -/
def sortStep (data : List MappedPoint) : List MappedPoint :=
  data.insertionSort scoreGE

/-- The unpacking `x, y, c = zip(*data)` feeding `ax.scatter`:
on an empty `data` the `zip` produces no tuples and the 3-way unpacking
raises `ValueError` (modelled as `none`); otherwise it yields the three
coordinate lists. -/
def scatterUnpack (data : List MappedPoint) :
    Option (List ℕ × List ℕ × List ℚ) :=
  match data with
  | [] => none
  | _ =>
    some (data.map fun p => p.1, data.map fun p => p.2.1,
      data.map fun p => p.2.2)

/-- The list handed to `batch_scan` when `--synteny` is set: the `data`
variable at that point, i.e. the mapped points after downsampling and
after the descending-score sort. -/
def DetectorInput (data out : List MappedPoint) : Prop :=
  ∃ mid, Downsamples data mid ∧ out = sortStep mid

/-- `itertools.groupby(simple_bed, key=lambda x: x[0])`, values part:
split a list into maximal runs of consecutive elements sharing the same
first component.  `chunkRunsAux x xs` returns the run containing `x`
(which `x` starts) and the remaining runs. -/
def chunkRunsAux :
    (String × ℕ) → List (String × ℕ) →
      List (String × ℕ) × List (List (String × ℕ))
  | x, [] => ([x], [])
  | x, y :: ys =>
    if y.1 = x.1 then
      (x :: (chunkRunsAux y ys).1, (chunkRunsAux y ys).2)
    else ([x], (chunkRunsAux y ys).1 :: (chunkRunsAux y ys).2)

/-- The grouping of the ordered-gene index rows `(seqid, rank)` into
maximal consecutive runs with equal `seqid`. -/
def chunkRuns (bed : List (String × ℕ)) : List (List (String × ℕ)) :=
  match bed with
  | [] => []
  | x :: xs => (chunkRunsAux x xs).1 :: (chunkRunsAux x xs).2

/-- `get_breaks`: for each maximal run of rows sharing a `seqid`, yield
`(seqid, ranks[0][1], ranks[-1][1])`. -/
def getBreaks (bed : List (String × ℕ)) : List (String × ℕ × ℕ) :=
  (chunkRuns bed).map fun run =>
    (run.headI.1, run.headI.2, (run.getLastD run.headI).2)

/-- The score inversion `vmax - value` applied when a point is built. -/
def scoreOf (vmax value : ℚ) : ℚ := vmax - value

/-- Query order lookup `{g1 : 0, g2 : 1, g3 : 2}` of the end-to-end
scenario. -/
def qorderC3 : String → Option ℕ := fun g =>
  if g = "g1" then some 0
  else if g = "g2" then some 1
  else if g = "g3" then some 2
  else none

/-- Subject order lookup `{h1 : 0, h2 : 1}` of the end-to-end
scenario. -/
def sorderC3 : String → Option ℕ := fun s =>
  if s = "h1" then some 0 else if s = "h2" then some 1 else none

/-- Query order lookup with identifiers `{A, B}`. -/
def qorderAB : String → Option ℕ := fun g =>
  if g = "A" then some 0 else if g = "B" then some 1 else none

/-- Subject order lookup with identifiers `{X, Y}`. -/
def sorderXY : String → Option ℕ := fun s =>
  if s = "X" then some 0 else if s = "Y" then some 1 else none

/-- A mapped point set one larger than the downsampling cap. -/
def bigData : List MappedPoint :=
  (List.range (sampleNumber + 1)).map fun i => (i, i, 0)

/-- One concrete resolution of `random.sample`'s nondeterminism:
keep the first `sample_number` points. -/
def takeSample (data : List MappedPoint) : List MappedPoint :=
  data.take sampleNumber

theorem clampValue_mem (vmin vmax v : ℚ) (h : vmin ≤ vmax) :
    vmin ≤ clampValue vmin vmax v ∧ clampValue vmin vmax v ≤ vmax := by
  simp only [clampValue]
  split_ifs <;> constructor <;> linarith

/-- Claim C3: with `valueMin = 0`, `valueMax = 1`, query lookup
`{g1 : 0, g2 : 1, g3 : 2}` and subject lookup `{h1 : 0, h2 : 1}`, the
input lines `"g1 h1 0.2"`, `"g2 h2 1.5"`, `"g3 zzz 0.5"` produce exactly
the mapped points `(0, 0, 0.8)` and `(1, 1, 0.0)` in that order: the
third line is dropped because `"zzz"` is absent from the subject lookup
and the second line's value `1.5` is clipped to `1.0` before
inversion. -/
theorem mapped_points_scenario :
    mappedPoints qorderC3 sorderC3 0 1
        ["g1 h1 0.2", "g2 h2 1.5", "g3 zzz 0.5"] =
      [(0, 0, 4 / 5), (1, 1, 0)] := by decide!

/-- Claim C4: a line with fewer than three whitespace-separated fields
yields no record; otherwise the third field's parse failure degrades to
`valueMin` and the value is clamped, so (assuming
`valueMin ≤ valueMax`) every value carried past parsing lies in
`[valueMin, valueMax]`; parsing never raises (it is total, returning
`none` exactly for skipped lines). -/
theorem parse_line_contract (vmin vmax : ℚ) (h : vmin ≤ vmax)
    (row : String) :
    ((pySplit row).length < 3 → parseLine vmin vmax row = none) ∧
    ∀ q s v, parseLine vmin vmax row = some (q, s, v) →
      vmin ≤ v ∧ v ≤ vmax := by
  constructor
  · intro hlen
    unfold parseLine
    rcases hsp : pySplit row with _ | ⟨a, _ | ⟨b, _ | ⟨c, rest⟩⟩⟩ <;>
      simp_all
    omega
  · intro q s v hv
    unfold parseLine at hv
    rcases hsp : pySplit row with _ | ⟨a, _ | ⟨b, _ | ⟨c, rest⟩⟩⟩ <;>
      rw [hsp] at hv <;> simp_all
    exact hv.2.2 ▸ clampValue_mem vmin vmax _ h

theorem parse_line_contract_witness :
    parseLine 0 1 "a b 5.0" = some ("a", "b", 1) ∧
      (0 : ℚ) ≤ 1 ∧ (1 : ℚ) ≤ 1 :=
  ⟨by decide!,
    (parse_line_contract 0 1 (by decide!) "a b 5.0").2 "a" "b" 1
      (by decide!)⟩

/-- Claim C5: a parsed record yields a mapped point if and only if its
query identifier is present in the query lookup and its subject
identifier is present in the subject lookup; absent identifiers cause a
silent drop.  In particular, with `{A, B}` on the query axis and
`{X, Y}` on the subject axis, `("A", "X", 0.5)` is kept and
`("C", "X", 0.5)` is dropped. -/
theorem mapping_drops_exactly_unknown_ids :
    (∀ (qorder sorder : String → Option ℕ) (vmax : ℚ)
        (rec : String × String × ℚ),
      (∃ pt, mapRecord qorder sorder vmax rec = some pt) ↔
        (qorder rec.1).isSome ∧ (sorder rec.2.1).isSome) ∧
    mapRecord qorderAB sorderXY 1 ("A", "X", 1 / 2) = some (0, 0, 1 / 2) ∧
    mapRecord qorderAB sorderXY 1 ("C", "X", 1 / 2) = none := by
  refine ⟨fun qorder sorder vmax rec => ?_, by decide!, by decide!⟩
  unfold mapRecord
  cases hq : qorder rec.1 <;> cases hs : sorder rec.2.1 <;> simp

/-- Claim C7: every mapped point's score is `valueMax` minus the clipped
value; the score is monotonically non-increasing in the clipped value;
and (assuming `valueMin ≤ valueMax`) the score of a clipped value lies
in `[0, valueMax - valueMin]`, both endpoints being attained at
`valueMax` and `valueMin` respectively. -/
theorem score_inversion_properties (vmin vmax : ℚ) (h : vmin ≤ vmax) :
    (∀ (qorder sorder : String → Option ℕ) (rec : String × String × ℚ)
        (pt : MappedPoint), mapRecord qorder sorder vmax rec = some pt →
        pt.2.2 = scoreOf vmax rec.2.2) ∧
    (∀ c c', c ≤ c' → scoreOf vmax c' ≤ scoreOf vmax c) ∧
    (∀ v, 0 ≤ scoreOf vmax (clampValue vmin vmax v) ∧
        scoreOf vmax (clampValue vmin vmax v) ≤ vmax - vmin) ∧
    scoreOf vmax vmax = 0 ∧ scoreOf vmax vmin = vmax - vmin := by
  refine ⟨fun qorder sorder rec pt hpt => ?_, fun c c' hc => ?_,
    fun v => ?_, sub_self vmax, rfl⟩
  · unfold mapRecord at hpt
    cases hq : qorder rec.1 <;> rw [hq] at hpt
    · simp at hpt
    · cases hs : sorder rec.2.1 <;> rw [hs] at hpt
      · simp at hpt
      · simp only [Option.some_inj] at hpt
        rw [← hpt]
        simp [scoreOf]
  · simp only [scoreOf]
    linarith
  · have := clampValue_mem vmin vmax v h
    simp only [scoreOf]
    constructor <;> linarith [this.1, this.2]

theorem score_inversion_properties_witness :
    0 ≤ scoreOf 1 (clampValue 0 1 (3 / 2)) ∧
      scoreOf 1 (clampValue 0 1 (3 / 2)) ≤ 1 - 0 :=
  (score_inversion_properties 0 1 (by decide!)).2.2.1 (3 / 2)

/-- Claim C10: when the caller supplies `valueMin > valueMax`, the two
sequential clips send every value to exactly `valueMax`, so every
surviving point's score is `valueMax - valueMax = 0` regardless of the
raw input. -/
theorem inverted_range_forces_vmax (vmin vmax : ℚ) (h : vmax < vmin) :
    (∀ v, clampValue vmin vmax v = vmax) ∧
    (∀ v, scoreOf vmax (clampValue vmin vmax v) = 0) ∧
    (∀ row q s v, parseLine vmin vmax row = some (q, s, v) → v = vmax) := by
  have hclamp : ∀ v, clampValue vmin vmax v = vmax := by
    intro v
    simp only [clampValue]
    split_ifs <;> first | rfl | linarith
  refine ⟨hclamp, fun v => ?_, fun row q s v hv => ?_⟩
  · rw [hclamp v, scoreOf, sub_self]
  · unfold parseLine at hv
    rcases hsp : pySplit row with _ | ⟨a, _ | ⟨b, _ | ⟨c, rest⟩⟩⟩ <;>
      rw [hsp] at hv <;> simp_all

theorem inverted_range_forces_vmax_witness :
    clampValue 2 1 5 = 1 ∧ scoreOf 1 (clampValue 2 1 5) = 0 :=
  ⟨(inverted_range_forces_vmax 2 1 (by decide!)).1 5,
    (inverted_range_forces_vmax 2 1 (by decide!)).2.1 5⟩

theorem downsamples_length {data out : List MappedPoint}
    (h : Downsamples data out) :
    out.length = min data.length sampleNumber := by
  by_cases hc : sampleNumber < data.length
  · rw [(h.1 hc).1, min_eq_right (by omega)]
  · rw [h.2 hc, min_eq_left (by omega)]

theorem downsamples_multiset_le {data out : List MappedPoint}
    (h : Downsamples data out) :
    (out : Multiset MappedPoint) ≤ (data : Multiset MappedPoint) := by
  by_cases hc : sampleNumber < data.length
  · exact (h.1 hc).2
  · rw [h.2 hc]

/-- Claim C6: downsampling never increases the set size and its output
size is exactly `min(inputSize, 5000)`; when the cap is exceeded the
output is a 5000-element selection without replacement (a sub-multiset
of the input, so no duplicates are introduced), otherwise the set passes
through unchanged. -/
theorem downsample_size_invariant (data out : List MappedPoint)
    (h : Downsamples data out) :
    out.length = min data.length sampleNumber ∧
      (out : Multiset MappedPoint) ≤ (data : Multiset MappedPoint) ∧
      (data.length ≤ sampleNumber → out = data) :=
  ⟨downsamples_length h, downsamples_multiset_le h, fun hle =>
    h.2 (by omega)⟩

theorem downsample_size_invariant_witness :
    ([((0 : ℕ), (0 : ℕ), (0 : ℚ))] : List MappedPoint).length =
        min ([((0 : ℕ), (0 : ℕ), (0 : ℚ))] : List MappedPoint).length
          sampleNumber ∧
      (([((0 : ℕ), (0 : ℕ), (0 : ℚ))] : List MappedPoint) :
          Multiset MappedPoint) ≤
        (([((0 : ℕ), (0 : ℕ), (0 : ℚ))] : List MappedPoint) :
          Multiset MappedPoint) ∧
      (([((0 : ℕ), (0 : ℕ), (0 : ℚ))] : List MappedPoint).length ≤
          sampleNumber →
        [((0 : ℕ), (0 : ℕ), (0 : ℚ))] = [((0 : ℕ), (0 : ℕ), (0 : ℚ))]) :=
  downsample_size_invariant _ _ (by simp [Downsamples, sampleNumber])

/-- Claim C8: the point set handed to rendering is sorted by descending
score: after the sort step, every adjacent pair of points has a
non-increasing score (and the sorted list is a permutation of its
input, so low-score points come last). -/
theorem sorted_descending_score (data : List MappedPoint) :
    List.Chain' scoreGE (sortStep data) ∧ (sortStep data).Perm data :=
  ⟨(List.sorted_insertionSort scoreGE data).chain',
    List.perm_insertionSort scoreGE data⟩

/-- Claim C1 (code bug): when no anchors survive parsing and mapping,
the engine does NOT produce an empty layout — the unpacking
`x, y, c = zip(*data)` raises `ValueError` on the empty point set
(modelled as `none`), so the run aborts before anything is handed to
the rendering collaborator. -/
theorem empty_mapping_raises (qorder sorder : String → Option ℕ)
    (vmin vmax : ℚ) (lines : List String) (out : List MappedPoint)
    (hempty : mappedPoints qorder sorder vmin vmax lines = [])
    (hds : Downsamples (mappedPoints qorder sorder vmin vmax lines) out) :
    scatterUnpack (sortStep out) = none := by
  rw [hempty] at hds
  have hout : out = [] := hds.2 (by simp [sampleNumber])
  subst hout
  rfl

theorem empty_mapping_raises_witness :
    mappedPoints (fun _ => none) (fun _ => none) 0 1 ["g1 h1 0.2"] = [] ∧
      scatterUnpack (sortStep []) = none := by
  have hemp :
      mappedPoints (fun _ => none) (fun _ => none) 0 1 ["g1 h1 0.2"] =
        [] := by decide!
  refine ⟨hemp, empty_mapping_raises _ _ 0 1 _ [] hemp ?_⟩
  rw [hemp]
  simp [Downsamples, sampleNumber]

/-- Claim C2 is false of the code: `batch_scan` is called after `data`
has been reassigned by the downsampling step (and sorted), so on a
mapped set of 5001 points there is an admissible execution whose
detector input is a 5000-point list, not the full pre-downsampling
set. -/
theorem detector_gets_downsampled_data :
    sampleNumber < bigData.length ∧
      DetectorInput bigData (sortStep (takeSample bigData)) ∧
      sortStep (takeSample bigData) ≠ bigData := by
  have hlen : bigData.length = sampleNumber + 1 := by
    simp [bigData]
  have hds : Downsamples bigData (takeSample bigData) := by
    constructor
    · intro _
      constructor
      · rw [takeSample, List.length_take, hlen]
        omega
      · exact Multiset.coe_le.mpr (List.take_sublist _ _).subperm
    · intro hcon
      exact absurd (show sampleNumber < bigData.length by rw [hlen]; omega)
        hcon
  refine ⟨by rw [hlen]; omega, ⟨takeSample bigData, hds, rfl⟩,
    fun hcontra => ?_⟩
  have := congrArg List.length hcontra
  simp only [sortStep, List.length_insertionSort, takeSample,
    List.length_take, hlen] at this
  omega

/-- Claim C2, amended: when the synteny overlay is enabled, the cluster
detector is invoked on the downsampled, sorted point set — for every
admissible execution its input has exactly `min(inputSize, 5000)`
points, all drawn from the mapped set; when the mapped set exceeds the
cap, that input is a strict subset and not the full pre-downsampling
set. -/
theorem detector_input_characterization (data out : List MappedPoint)
    (h : DetectorInput data out) :
    out.length = min data.length sampleNumber ∧ out ⊆ data := by
  obtain ⟨mid, hds, rfl⟩ := h
  constructor
  · rw [sortStep, List.length_insertionSort]
    exact downsamples_length hds
  · intro p hp
    rw [sortStep, List.mem_insertionSort] at hp
    exact (Multiset.mem_of_le (downsamples_multiset_le hds)) hp

theorem detector_input_characterization_witness :
    (sortStep [((0 : ℕ), (0 : ℕ), (0 : ℚ))]).length =
        min ([((0 : ℕ), (0 : ℕ), (0 : ℚ))] : List MappedPoint).length
          sampleNumber ∧
      sortStep [((0 : ℕ), (0 : ℕ), (0 : ℚ))] ⊆
        [((0 : ℕ), (0 : ℕ), (0 : ℚ))] :=
  detector_input_characterization _ _
    ⟨[((0 : ℕ), (0 : ℕ), (0 : ℚ))],
      by simp [Downsamples, sampleNumber], rfl⟩

theorem chunkRunsAux_const_append (x : String × ℕ)
    (t rest : List (String × ℕ)) (hconst : ∀ y ∈ t, y.1 = x.1)
    (hrest : rest = [] ∨ ∃ z zs, rest = z :: zs ∧ z.1 ≠ x.1) :
    chunkRunsAux x (t ++ rest) = (x :: t, chunkRuns rest) := by
  induction t generalizing x with
  | nil =>
    rcases hrest with h | ⟨z, zs, h, hz⟩
    · subst h
      rfl
    · subst h
      simp only [List.nil_append, chunkRunsAux]
      rw [if_neg hz]
      rfl
  | cons w t ih =>
    have hw : w.1 = x.1 := hconst w (by simp)
    simp only [List.cons_append, chunkRunsAux, List.append_eq]
    rw [ih w (fun y hy => (hconst y (by simp [hy])).trans hw.symm)
        (hrest.imp id fun ⟨z, zs, hzz, hz⟩ => ⟨z, zs, hzz, hw ▸ hz⟩),
      if_pos hw]

theorem chunkRuns_flatten_of_runs (runs : List (List (String × ℕ)))
    (hne : ∀ r ∈ runs, r ≠ [])
    (hconst : ∀ r ∈ runs, ∀ y ∈ r, y.1 = r.headI.1)
    (hchain : List.Chain' (fun r r' => r.headI.1 ≠ r'.headI.1) runs) :
    chunkRuns runs.flatten = runs := by
  induction runs with
  | nil => rfl
  | cons r rest ih =>
    obtain ⟨x, t, rfl⟩ : ∃ x t, r = x :: t := by
      cases hr : r with
      | nil => exact absurd hr (hne r (by simp))
      | cons a l => exact ⟨a, l, rfl⟩
    have hrest : rest.flatten = [] ∨
        ∃ z zs, rest.flatten = z :: zs ∧ z.1 ≠ x.1 := by
      cases hrst : rest with
      | nil => exact Or.inl (by simp)
      | cons r' rest' =>
        obtain ⟨z, zs, hz⟩ : ∃ z zs, r' = z :: zs := by
          cases hr' : r' with
          | nil => exact absurd hr' (hne r' (by simp [hrst]))
          | cons a l => exact ⟨a, l, rfl⟩
        refine Or.inr ⟨z, zs ++ rest'.flatten, by simp [hz], ?_⟩
        rw [hrst] at hchain
        have hne' : (x :: t).headI.1 ≠ r'.headI.1 :=
          (List.chain'_cons.mp hchain).1
        simp only [List.headI, hz] at hne'
        exact fun hcon => hne' (by rw [hcon])
    have hconst' : ∀ y ∈ t, y.1 = x.1 := fun y hy => by
      have := hconst (x :: t) (by simp) y (by simp [hy])
      simpa [List.headI] using this
    have hflat : ((x :: t) :: rest).flatten = x :: (t ++ rest.flatten) := by
      simp
    rw [hflat]
    have hstep : chunkRuns (x :: (t ++ rest.flatten)) =
        (chunkRunsAux x (t ++ rest.flatten)).1 ::
          (chunkRunsAux x (t ++ rest.flatten)).2 := rfl
    rw [hstep, chunkRunsAux_const_append x t rest.flatten hconst' hrest]
    show (x :: t) :: chunkRuns rest.flatten = (x :: t) :: rest
    rw [ih (fun r hr => hne r (by simp [hr]))
      (fun r hr => hconst r (by simp [hr])) hchain.tail]

/-- Claim C9: given the precondition that the ordered-gene index is a
concatenation of contiguous maximal runs (each nonempty with a constant
sequenceId, adjacent runs having different sequenceIds), boundary
extraction emits exactly one break per run, in index order, whose
startOrdinal is the run's first ordinal and whose endOrdinal is the
run's last ordinal. -/
theorem get_breaks_partitions (runs : List (List (String × ℕ)))
    (hne : ∀ r ∈ runs, r ≠ [])
    (hconst : ∀ r ∈ runs, ∀ y ∈ r, y.1 = r.headI.1)
    (hchain : List.Chain' (fun r r' => r.headI.1 ≠ r'.headI.1) runs) :
    getBreaks runs.flatten =
      runs.map fun run =>
        (run.headI.1, run.headI.2, (run.getLastD run.headI).2) := by
  unfold getBreaks
  rw [chunkRuns_flatten_of_runs runs hne hconst hchain]

theorem get_breaks_partitions_witness :
    getBreaks [("chr1", 0), ("chr1", 1), ("chr2", 2)] =
      [("chr1", 0, 1), ("chr2", 2, 2)] :=
  get_breaks_partitions [[("chr1", 0), ("chr1", 1)], [("chr2", 2)]]
    (by decide) (by decide) (by rw [List.chain'_pair]; decide)
